import Mathlib

/-!
Verification development for the psims mzML writer core
(`src/psims/mzml/writer.py`): the streaming tag-offset indexer, the hashing
byte sink, the indexed-document build pipeline, the array codec glue in
`MzMLWriter._prepare_array`, and the spectrum/chromatogram record assembly.

Byte strings are modelled as `List Nat` (one entry per byte, ASCII codes).
The SHA1 digest (external `hashlib`) and zlib compression (external `zlib`)
are abstracted as function parameters: all claims concern which bytes flow
into them, never their internal behaviour.
-/

namespace Psims

/-- Byte strings: one `Nat` per byte. -/
abbrev Bytes := List Nat

/-- ASCII bytes of a Lean string literal (all literals used here are ASCII). -/
def strBytes (s : String) : Bytes := s.toList.map Char.toNat

/-- Decimal digits of a natural number, as Python `"{:d}".format(n)` produces. -/
def natToDec (n : Nat) : Bytes := strBytes (Nat.repr n)

/-- Whether `pat` is a leading segment of `text`. -/
def startsWithB : Bytes → Bytes → Bool
  | [], _ => true
  | _ :: _, [] => false
  | p :: ps, c :: cs => p == c && startsWithB ps cs

/-- Helper for `findSubstring`, carrying the current absolute position. -/
def findSubstringFrom (pat : Bytes) : Bytes → Nat → Option Nat
  | text, i =>
    if startsWithB pat text then some i
    else
      match text with
      | [] => none
      | _ :: rest => findSubstringFrom pat rest (i + 1)

/-- Index of the leftmost occurrence of the literal `pat` in `text`:
models `re.compile(literal).search(data)` and its `.start()`, as used by
`TagIndexerBase.scan` (the two patterns `<spectrum ` and `<chromatogram `
are literal byte strings). -/
def findSubstring (pat text : Bytes) : Option Nat := findSubstringFrom pat text 0

/-- Python regex whitespace class (complement of `\S`). -/
def isPySpace (c : Nat) : Bool := c == 32 || c == 9 || c == 10 || c == 13 || c == 11 || c == 12

/-- Quote characters accepted by the attribute regex. -/
def isQuoteB (c : Nat) : Bool := c == 34 || c == 39

/-- Length of the maximal leading run of bytes satisfying `p`. -/
def countWhile (p : Nat → Bool) : Bytes → Nat
  | [] => 0
  | c :: rest => if p c then countWhile p rest + 1 else 0

/-- Match the quoted-value part of the attribute regex at the start of
`rest` (which begins right after the `=`): an opening quote, a maximal
nonempty run of non-quote bytes (greedy), and a closing quote. Returns the
captured value and the number of bytes consumed. -/
def tryQuoted : Bytes → Option (Bytes × Nat)
  | [] => none
  | q :: rest =>
    if isQuoteB q then
      let m := countWhile (fun c => !(isQuoteB c)) rest
      if 1 ≤ m ∧ m < rest.length then some (rest.take m, m + 2) else none
    else none

/-- Try the attribute regex at the start of `s` with the first capture group
of length exactly `g1len` (so an `=` must follow it). Returns both captures
and the total number of bytes consumed. -/
def tryLen (s : Bytes) (g1len : Nat) : Option (Bytes × Bytes × Nat) :=
  if s.get? g1len = some 61 then
    match tryQuoted (s.drop (g1len + 1)) with
    | some (g2, consumed) => some (s.take g1len, g2, g1len + 1 + consumed)
    | none => none
  else none

/-- Greedy backtracking over the length of the first capture group, longest
candidate first, as Python regex matching of a greedy group performs. -/
def searchG1 (s : Bytes) : Nat → Option (Bytes × Bytes × Nat)
  | 0 => none
  | k + 1 =>
    match tryLen s (k + 1) with
    | some r => some r
    | none => searchG1 s k

/-- Match of the attribute pattern anchored at the start of `s`: models one
match attempt of `TagIndexerBase.attr_pattern` at one position. The pattern
is: a nonempty greedy run of nonspace bytes (the key), an equals sign, an
opening quote (double or single), a nonempty greedy run of non-quote bytes
(the value), and a closing quote. Greedy matching of the key group tries the
longest nonspace prefix first and backtracks downwards, as Python does. -/
def matchAttrAt (s : Bytes) : Option (Bytes × Bytes × Nat) :=
  searchG1 s (countWhile (fun c => !(isPySpace c)) s - 1)

/-- Fuelled scanner for `attrFindall`; advances by the match length on a
match and by one byte otherwise, exactly as `re.findall` scans. The fuel is
the length of the scanned text, which bounds the number of steps since every
step consumes at least one byte. -/
def findallAux : Nat → Bytes → List (Bytes × Bytes)
  | 0, _ => []
  | fuel + 1, s =>
    match matchAttrAt s with
    | some (g1, g2, c) => (g1, g2) :: findallAux fuel (s.drop (max c 1))
    | none =>
      match s with
      | [] => []
      | _ :: rest => findallAux fuel rest

/-- All attribute pairs of a chunk: models
`TagIndexerBase.attr_pattern.findall(data)`. -/
def attrFindall (s : Bytes) : List (Bytes × Bytes) := findallAux s.length s

/-- Ordered-dictionary insertion: if the key is present, replace its value in
place; otherwise append at the end. This is the update behaviour of both
`OrderedDict.__setitem__` and `dict` construction from pairs. -/
def odInsert {α : Type} (k : Bytes) (v : α) : List (Bytes × α) → List (Bytes × α)
  | [] => [(k, v)]
  | (k1, v1) :: rest => if k1 = k then (k, v) :: rest else (k1, v1) :: odInsert k v rest

/-- Lookup in an association list with unique keys (the shape `odInsert`
maintains). -/
def assocLookup {α : Type} : List (Bytes × α) → Bytes → Option α
  | [], _ => none
  | (k1, v) :: rest, k => if k1 = k then some v else assocLookup rest k

/-- Collapse an association list to Python `dict` semantics: first-insertion
order, last value for a repeated key wins. -/
def pyDict (l : List (Bytes × Bytes)) : List (Bytes × Bytes) :=
  l.foldl (fun acc kv => odInsert kv.1 kv.2 acc) []

/-- Python exception kinds raised by the modelled code paths. -/
inductive Err where
  | keyError
  | valueError
  | typeError
  | memoryError
deriving DecidableEq

/-- Sequencing with exception propagation: run `x`; if it raised, the
exception propagates, otherwise continue with its value. This is the
semantics of consecutive Python statements where the first may raise. -/
def exSeq {α β : Type} (x : Except Err α) (f : α → Except Err β) : Except Err β :=
  match x with
  | .error e => .error e
  | .ok a => f a

/-- Offset record (`Offset` in the source): an absolute byte position plus
the attribute map captured from the matched chunk. The source compares
offsets by position only; the claims never rely on that comparison. -/
structure Offset where
  offset : Nat
  attrs : List (Bytes × Bytes)
deriving DecidableEq

/-- One tag indexer (`TagIndexerBase`): an element-kind name, the literal
opening-tag pattern, and the id-keyed insertion-ordered offset index. -/
structure TagIndexer where
  name : Bytes
  pattern : Bytes
  index : List (Bytes × Offset)
deriving DecidableEq

/-- Models `TagIndexerBase.scan(data, distance)`: on a pattern match, all
attribute pairs are extracted, the required `id` attribute is looked up
(missing -> `KeyError`), and `distance + match.start()` is recorded under
that id, overwriting any prior entry. Returns the updated indexer and the
matched flag. -/
def TagIndexer.scan (ix : TagIndexer) (data : Bytes) (distance : Nat) :
    Except Err (TagIndexer × Bool) :=
  match findSubstring ix.pattern data with
  | none => .ok (ix, false)
  | some s =>
    let attrs := pyDict (attrFindall data)
    match assocLookup attrs (strBytes "id") with
    | none => .error .keyError
    | some xid =>
      .ok ({ ix with index := odInsert xid ⟨distance + s, attrs⟩ ix.index }, true)

/-- Models `IndexList.test(data, distance)`: offer the chunk to each indexer
in registration order, returning `True` as soon as one matches (the loop
body is `if indexer(data, distance): return True`). -/
def testIndexers : List TagIndexer → Bytes → Nat → Except Err (List TagIndexer × Bool)
  | [], _, _ => .ok ([], false)
  | ix :: rest, data, distance =>
    match ix.scan data distance with
    | .error e => .error e
    | .ok (ix1, true) => .ok (ix1 :: rest, true)
    | .ok (ix1, false) =>
      match testIndexers rest data distance with
      | .error e => .error e
      | .ok (rest1, b) => .ok (ix1 :: rest1, b)

/-- Fresh spectrum indexer (`SpectrumIndexer()`). -/
def spectrumIndexer0 : TagIndexer := ⟨strBytes "spectrum", strBytes "<spectrum ", []⟩

/-- Fresh chromatogram indexer (`ChromatogramIndexer()`). -/
def chromatogramIndexer0 : TagIndexer := ⟨strBytes "chromatogram", strBytes "<chromatogram ", []⟩

/-- State of `MzMLIndexer` (which extends `HashingFileBuffer`): the retained
byte buffer, the bytes fed into the running SHA1 state, the byte counter,
an optional memory budget used to model `MemoryError` during buffering, and
the registered indexers. -/
structure Sink where
  buffer : Bytes
  checksumFed : Bytes
  accumulator : Nat
  memLimit : Option Nat
  indexers : List TagIndexer
deriving DecidableEq

/-- Whether appending up to a total of `n` bytes exceeds the optional memory
budget. -/
def overLimit : Option Nat → Nat → Bool
  | some lim, n => n > lim
  | none, _ => false

/-- The `HashingFileBuffer.write(data)` part of a sink write: append to the
retained buffer (raising `MemoryError` when the memory budget is
exhausted), feed the digest input, advance the counter by `len(data)`. -/
def hashAppend (st : Sink) (data : Bytes) (ixs : List TagIndexer) : Except Err Sink :=
  if overLimit st.memLimit (st.accumulator + data.length) then .error .memoryError
  else .ok ⟨st.buffer ++ data, st.checksumFed ++ data,
            st.accumulator + data.length, st.memLimit, ixs⟩

/-- Models `MzMLIndexer.write(data)`: first `self.indices.test(data,
self.accumulator)` with the counter as it stands before the append, then
`HashingFileBuffer.write(data)`. -/
def sinkWrite (st : Sink) (data : Bytes) : Except Err Sink :=
  exSeq (testIndexers st.indexers data st.accumulator) (fun p => hashAppend st data p.1)

/-- Fresh sink as built by `MzMLIndexer.__init__`: empty buffer, empty digest
state, zero counter, spectrum indexer then chromatogram indexer. -/
def initSink (lim : Option Nat) : Sink :=
  ⟨[], [], 0, lim, [spectrumIndexer0, chromatogramIndexer0]⟩

/-- Exact bytes of the fixed XML declaration and root open tag written by
`MzMLIndexer.write_opening`. -/
def headerBytes : Bytes :=
  strBytes "<?xml version=\"1.0\" encoding=\"utf-8\"?>\n<indexedmzML xmlns=\"http://psi.hupo.org/ms/mzml\" xmlns:xsi=\"http://www.w3.org/2001/XMLSchema-instance\" xsi:schemaLocation=\"http://psi.hupo.org/ms/mzml http://psidev.info/files/ms/mzML/xsd/mzML1.1.2_idx.xsd\">\n"

/-- Models `MzMLIndexer.write_opening`. -/
def write_opening (st : Sink) : Except Err Sink := sinkWrite st headerBytes

/-- Models `MzMLIndexer.embed_source`: the pretty-printed lines of the plain
document (produced by the external lxml round trip, taken here as an
arbitrary list of lines) are each indented by two spaces, newline-terminated
and written through the sink one chunk per line. -/
def embed_source : Sink → List Bytes → Except Err Sink
  | st, [] => .ok st
  | st, line :: rest =>
    exSeq (sinkWrite st (32 :: 32 :: (line ++ [10]))) (fun st1 => embed_source st1 rest)

/-- Models `IndexList.__len__`: the number of indexers holding at least one
entry. -/
def countNonEmpty (l : List TagIndexer) : Nat :=
  (l.filter (fun ix => ix.index.length > 0)).length

/-- Interpolation of a Python bytes object into a text format string, as in
`"...{}...".format(ref_id)` with `ref_id` of type `bytes`: Python renders
the repr, a `b` then the contents between single quotes. Escaping of quotes
and non-printable bytes inside the contents is not modelled; no claim
depends on these bytes. -/
def pyBytesRepr (b : Bytes) : Bytes := 98 :: 39 :: (b ++ [39])

/-- One serialized offset line of a tag index
(`      <offset idRef="ID">OFF</offset>` and a newline). -/
def offsetLine (refId : Bytes) (off : Nat) : Bytes :=
  strBytes "      <offset idRef=" ++ [34] ++ pyBytesRepr refId ++ [34, 62] ++
    natToDec off ++ strBytes "</offset>\n"

/-- Opening line of one index block (`    <index name="NAME">` and newline). -/
def indexBlockOpen (name : Bytes) : Bytes :=
  strBytes "    <index name=" ++ [34] ++ name ++ [34, 62, 10]

/-- Writes the offset lines of one index block through the sink, in
insertion order, as the loop in `TagIndexerBase.write` does. -/
def writeOffsetLines : Sink → List (Bytes × Offset) → Except Err Sink
  | st, [] => .ok st
  | st, (refId, od) :: rest =>
    exSeq (sinkWrite st (offsetLine refId od.offset)) (fun st1 => writeOffsetLines st1 rest)

/-- Writes the block of every non-empty index through the sink, in
registration order: the loop body of `IndexList.write_index_list` calling
`TagIndexerBase.write`. Entries of a block are the snapshot taken when the
block starts (the concrete tag patterns never match the emitted lines, so
this coincides with the live iteration the source performs). -/
def writeIndexBlocks : Sink → List TagIndexer → Except Err Sink
  | st, [] => .ok st
  | st, ix :: rest =>
    if ix.index.length > 0 then
      exSeq (sinkWrite st (indexBlockOpen ix.name)) (fun st1 =>
        exSeq (writeOffsetLines st1 ix.index) (fun st2 =>
          exSeq (sinkWrite st2 (strBytes "    </index>\n")) (fun st3 =>
            writeIndexBlocks st3 rest)))
    else writeIndexBlocks st rest

/-- Opening line of the index list (`  <indexList count="N">` and newline). -/
def indexListOpen (n : Nat) : Bytes :=
  strBytes "  <indexList count=" ++ [34] ++ natToDec n ++ [34, 62, 10]

/-- Models `MzMLIndexer.write_index_list` followed by
`IndexList.write_index_list(self, offset)`: snapshot the byte counter as
the offset, write the index-list open tag carrying the non-empty count, the
non-empty index blocks, the close tag, then the snapshot value as the
`indexListOffset` element (two separate writes in the source). -/
def write_index_list (st : Sink) : Except Err Sink :=
  let offset := st.accumulator
  let n := countNonEmpty st.indexers
  exSeq (sinkWrite st (indexListOpen n)) (fun st1 =>
    exSeq (writeIndexBlocks st1 st1.indexers) (fun st2 =>
      exSeq (sinkWrite st2 (strBytes "  </indexList>\n")) (fun st3 =>
        exSeq (sinkWrite st3 (strBytes "  <indexListOffset>")) (fun st4 =>
          sinkWrite st4 (natToDec offset ++ strBytes "</indexListOffset>\n")))))

/-- The checksum open tag chunk written by `MzMLIndexer.write_checksum`,
including its two-space indent. -/
def checksumOpenTag : Bytes := strBytes "  <fileChecksum>"

/-- Models `MzMLIndexer.write_checksum` with the SHA1 hex digest abstracted
as `H` over the byte stream fed so far: write the open tag through the sink,
evaluate the digest of everything fed up to and including that tag, write
the digest text, then the close tag. -/
def write_checksum (H : Bytes → Bytes) (st : Sink) : Except Err Sink :=
  exSeq (sinkWrite st checksumOpenTag) (fun st1 =>
    exSeq (sinkWrite st1 (H st1.checksumFed)) (fun st2 =>
      sinkWrite st2 (strBytes "</fileChecksum>\n")))

/-- Models `MzMLIndexer.write_closing`. -/
def write_closing (st : Sink) : Except Err Sink :=
  sinkWrite st (strBytes "</indexedmzML>")

/-- Models `MzMLIndexer.build` from a fresh sink: opening, reflowed source
lines, index list, checksum, root close. -/
def build (H : Bytes → Bytes) (lines : List Bytes) (lim : Option Nat) : Except Err Sink :=
  exSeq (write_opening (initSink lim)) (fun st1 =>
    exSeq (embed_source st1 lines) (fun st2 =>
      exSeq (write_index_list st2) (fun st3 =>
        exSeq (write_checksum H st3) (fun st4 =>
          write_closing st4))))

/-- Models `MzMLWriter.format` in the indexed path: run the build and the
overwrite inside a try block, catch `MemoryError` and fall through leaving
the destination bytes as they are; on success the retained buffer overwrites
the destination; any other exception propagates. -/
def format (H : Bytes → Bytes) (lines : List Bytes) (lim : Option Nat) (dest : Bytes) :
    Except Err Bytes :=
  match build H lines lim with
  | .ok st => .ok st.buffer
  | .error .memoryError => .ok dest
  | .error e => .error e

/-- Numeric element kinds supported by the codec (32- and 64-bit float, and
the integer variants used for charge arrays). -/
inductive Dtype where
  | f32
  | f64
  | i32
  | i64
deriving DecidableEq

/-- An encoding token as passed to `_prepare_array`: a numeric width, an
explicit dtype, or Python `None` (the value every array type receives when
`write_spectrum` is called with its default `encoding=None`). -/
inductive EncodingKey where
  | width (n : Nat)
  | dt (d : Dtype)
  | pynone
deriving DecidableEq

/-- Compression modes accepted by the codec. -/
inductive Compression where
  | noComp
  | zlib
deriving DecidableEq

/-- Modelled from the spec: `encoding_map` lives in
`psims.mzml.binary_encoding`, which is not under `src/`. Widths 32 and 64
map to the float dtypes, explicit dtypes pass through, and any other token
is a configuration error (a `KeyError` on the mapping), per the spec rule
that an unknown width or dtype token is fatal. -/
def encoding_map : EncodingKey → Except Err Dtype
  | .width 32 => .ok .f32
  | .width 64 => .ok .f64
  | .dt d => .ok d
  | _ => .error .keyError

/-- Bytes per element of each dtype. -/
def bytesPerElem : Dtype → Nat
  | .f32 => 4
  | .f64 => 8
  | .i32 => 4
  | .i64 => 8

/-- Little-endian fixed-width byte image of one element. Modelled from the
spec: the codec uses a fixed-width platform-consistent layout per declared
width; the IEEE-754 bit pattern of float elements is abstracted to the
two-complement image of the integer value, since no claim depends on
payload byte values, only on byte counts. -/
def intToLE (w : Nat) (v : Int) : Bytes :=
  (List.range w).map (fun i => ((v.emod (2 ^ (8 * w))).toNat / 2 ^ (8 * i)) % 256)

/-- Raw binary buffer of a numeric array under a dtype. -/
def rawBytes (d : Dtype) : List Int → Bytes
  | [] => []
  | x :: xs => intToLE (bytesPerElem d) x ++ rawBytes d xs

/-- Standard base64 alphabet, sextet to ASCII code. -/
def b64char (n : Nat) : Nat :=
  if n < 26 then 65 + n
  else if n < 52 then 97 + (n - 26)
  else if n < 62 then 48 + (n - 52)
  else if n = 62 then 43
  else 47

/-- Standard base64 encoding with padding, over byte lists. -/
def base64Encode : Bytes → Bytes
  | [] => []
  | [a] => [b64char (a / 4), b64char (a % 4 * 16), 61, 61]
  | [a, b] => [b64char (a / 4), b64char (a % 4 * 16 + b / 16), b64char (b % 16 * 4), 61]
  | a :: b :: c :: rest =>
    b64char (a / 4) :: b64char (a % 4 * 16 + b / 16) ::
      b64char (b % 16 * 4 + c / 64) :: b64char (c % 64) :: base64Encode rest

/-- Apply a compression mode to a raw buffer: a no-op for `none`, the
external zlib deflate (abstracted as the parameter `zlibC`) otherwise. -/
def applyCompression (zlibC : Bytes → Bytes) : Compression → Bytes → Bytes
  | .noComp, b => b
  | .zlib, b => zlibC b

/-- Modelled from the spec: `encode_array` lives in
`psims.mzml.binary_encoding`, which is not under `src/`. Per the spec, the
codec converts the values to the fixed-width binary buffer, applies the
compression mode to it, and base64-encodes the compressed bytes into the
binary payload it returns. -/
def encode_array (zlibC : Bytes → Bytes) (d : Dtype) (comp : Compression)
    (values : List Int) : Bytes :=
  base64Encode (applyCompression zlibC comp (rawBytes d values))

/-- Modelled from the spec: the compression-method tag produced alongside
the payload (`compression_map` in `binary_encoding`, not under `src/`). -/
def compression_map : Compression → Bytes
  | .noComp => strBytes "no compression"
  | .zlib => strBytes "zlib compression"

/-- Modelled from the spec: the textual encoding-method tag
(`dtype_to_encoding` in `binary_encoding`, not under `src/`). -/
def dtype_to_encoding : Dtype → Bytes
  | .f32 => strBytes "32-bit float"
  | .f64 => strBytes "64-bit float"
  | .i32 => strBytes "32-bit integer"
  | .i64 => strBytes "64-bit integer"

/-- The known standard array-type names (`ARRAY_TYPES` in the source). -/
def ARRAY_TYPES : List Bytes :=
  [strBytes "m/z array", strBytes "intensity array", strBytes "charge array",
   strBytes "signal to noise array", strBytes "time array",
   strBytes "wavelength array", strBytes "flow rate array",
   strBytes "pressure array", strBytes "temperature array",
   strBytes "mean drift time array", strBytes "mean charge array",
   strBytes "resolution array", strBytes "baseline array"]

/-- Result of `_prepare_array` (the `BinaryDataArray` component it builds):
the base64 payload, the declared encoded length, the optional explicit
array-length override, and the ordered parameter names. -/
structure BinaryDataArray where
  payload : Bytes
  encodedLength : Nat
  arrayLength : Option Nat
  params : List Bytes
deriving DecidableEq

/-- The length-override policy of `_prepare_array`: an explicit array
length is declared exactly when a default array length was supplied and the
actual element count differs from it. -/
def overrideFor (dal? : Option Nat) (len : Nat) : Option Nat :=
  match dal? with
  | some n => if len = n then none else some len
  | none => none

/-- Models `MzMLWriter._prepare_array`: resolve the dtype through
`encoding_map` (failure is a `KeyError`), encode the array, compute the
length-override flag (`default_array_length is not None and len(array) !=
default_array_length`), assemble the parameter list (array type, the
non-standard marker when the type is unknown, the compression tag, the
encoding tag), and declare `encoded_length = len(encoded_binary)`. -/
def prepare_array (zlibC : Bytes → Bytes) (encoding : EncodingKey)
    (compression : Compression) (array_type : Option Bytes)
    (default_array_length : Option Nat) (array : List Int) :
    Except Err BinaryDataArray :=
  match encoding_map encoding with
  | .error e => .error e
  | .ok dtype =>
    let encoded_binary := encode_array zlibC dtype compression array
    let typeParams :=
      match array_type with
      | some t =>
        if t ∈ ARRAY_TYPES then [t] else [t, strBytes "non-standard data array"]
      | none => []
    .ok ⟨encoded_binary, encoded_binary.length,
         overrideFor default_array_length array.length,
         typeParams ++ [compression_map compression, dtype_to_encoding dtype]⟩

/-- The `encoding` argument of `write_spectrum` and `write_chromatogram`:
either a mapping from array-type name to encoding token, or a single
scalar token. -/
inductive EncodingInput where
  | emap (m : List (Option Bytes × EncodingKey))
  | escalar (k : EncodingKey)
deriving DecidableEq

/-- Lookup in a mapping keyed by optional byte strings (a Python dict can be
keyed by `None`, which the chromatogram loop may look up). -/
def optAssocLookup {α : Type} : List (Option Bytes × α) → Option Bytes → Option α
  | [], _ => none
  | (k1, v) :: rest, k => if k1 = k then some v else optAssocLookup rest k

/-- Models the `defaultdict` both writers build from `encoding`: a mapping
falls back to `np.float32` for absent keys; a scalar applies to every key. -/
def encLookup (e : EncodingInput) (k : Option Bytes) : EncodingKey :=
  match e with
  | .emap m => (optAssocLookup m k).getD (.dt .f32)
  | .escalar s => s

/-- The `polarity` argument of `write_spectrum`: an integer, a string, or
`None`. -/
inductive PolarityInput where
  | pint (i : Int)
  | pstr (s : Bytes)
  | pnone
deriving DecidableEq

/-- Models the polarity normalization block of `write_spectrum`: a positive
integer or a string containing `positive` yields the positive-scan marker, a
negative integer or a string containing `negative` yields the negative-scan
marker, and zero, unrecognized strings and `None` yield no marker. -/
def normalizePolarity : PolarityInput → Option Bytes
  | .pint i =>
    if i > 0 then some (strBytes "positive scan")
    else if i < 0 then some (strBytes "negative scan")
    else none
  | .pstr s =>
    if (findSubstring (strBytes "positive") s).isSome then some (strBytes "positive scan")
    else if (findSubstring (strBytes "negative") s).isSome then some (strBytes "negative scan")
    else none
  | .pnone => none

/-- One emitted record: the fields of the `Spectrum` and `Chromatogram`
elements that the claims concern (sequential index, id, default array
length, binary-data-array list, parameter names). -/
inductive Record where
  | spectrum (index : Nat) (id : Option Bytes) (defaultArrayLength : Nat)
      (arrays : List BinaryDataArray) (params : List Bytes)
  | chromatogram (index : Nat) (id : Option Bytes) (defaultArrayLength : Nat)
      (arrays : List BinaryDataArray) (params : List Bytes)
deriving DecidableEq

/-- The record index, for either record kind. -/
def Record.index : Record → Nat
  | .spectrum i _ _ _ _ => i
  | .chromatogram i _ _ _ _ => i

/-- The binary-data-array list, for either record kind. -/
def Record.arrays : Record → List BinaryDataArray
  | .spectrum _ _ _ a _ => a
  | .chromatogram _ _ _ a _ => a

/-- The default array length, for either record kind. -/
def Record.defaultLen : Record → Nat
  | .spectrum _ _ n _ _ => n
  | .chromatogram _ _ n _ _ => n

/-- Mutable state of an `MzMLWriter` instance relevant to record assembly:
the two per-kind counters (initialized to zero in `__init__`) and the
records emitted so far. -/
structure WriterState where
  spectrum_count : Nat
  chromatogram_count : Nat
  output : List Record
deriving DecidableEq

/-- Prepare one optional array slot (m/z, intensity, charge, time): absent
slots contribute nothing; present slots are prepared with their standard
array-type name and, as in the source, with no default array length. -/
def prepareOpt (zlibC : Bytes → Bytes) (enc : EncodingInput) (comp : Compression)
    (atype : Bytes) : Option (List Int) → Except Err (List BinaryDataArray)
  | none => .ok []
  | some a =>
    exSeq (prepare_array zlibC (encLookup enc (some atype)) comp (some atype) none a)
      (fun t => .ok [t])

/-- The `other_arrays` loop of `write_spectrum`: an entry whose array type
is `None` raises `ValueError` before anything else in that iteration; other
entries are prepared against the default array length. -/
def prepareOtherSpectrum (zlibC : Bytes → Bytes) (enc : EncodingInput)
    (comp : Compression) (dal : Nat) :
    List (Option Bytes × List Int) → Except Err (List BinaryDataArray)
  | [] => .ok []
  | (none, _) :: _ => .error .valueError
  | (some t, a) :: rest =>
    exSeq (prepare_array zlibC (encLookup enc (some t)) comp (some t) (some dal) a)
      (fun tag =>
        exSeq (prepareOtherSpectrum zlibC enc comp dal rest)
          (fun tags => .ok (tag :: tags)))

/-- The `other_arrays` loop of `write_chromatogram`: unlike the spectrum
loop it performs no check on the array type, so a `None` type flows into
`_prepare_array` (which then simply attaches no array-type parameter). -/
def prepareOtherChromatogram (zlibC : Bytes → Bytes) (enc : EncodingInput)
    (comp : Compression) (dal : Nat) :
    List (Option Bytes × List Int) → Except Err (List BinaryDataArray)
  | [] => .ok []
  | (t, a) :: rest =>
    exSeq (prepare_array zlibC (encLookup enc t) comp t (some dal) a)
      (fun tag =>
        exSeq (prepareOtherChromatogram zlibC enc comp dal rest)
          (fun tags => .ok (tag :: tags)))

/-- Array assembly of `write_spectrum` in source order: m/z (no default
length), intensity (no default length), charge (no default length), then
the additional arrays against the default length. -/
def spectrumArrays (zlibC : Bytes → Bytes) (enc : EncodingInput) (comp : Compression)
    (mzA : List Int) (intensity charge : Option (List Int))
    (others : List (Option Bytes × List Int)) : Except Err (List BinaryDataArray) :=
  exSeq (prepare_array zlibC (encLookup enc (some (strBytes "m/z array"))) comp
      (some (strBytes "m/z array")) none mzA) (fun mzTag =>
    exSeq (prepareOpt zlibC enc comp (strBytes "intensity array") intensity) (fun intTags =>
      exSeq (prepareOpt zlibC enc comp (strBytes "charge array") charge) (fun chTags =>
        exSeq (prepareOtherSpectrum zlibC enc comp mzA.length others) (fun otherTags =>
          .ok (mzTag :: (intTags ++ (chTags ++ otherTags)))))))

/-- Array assembly of `write_chromatogram` in source order: time (no
default length), intensity (no default length), then the additional arrays
against the default length. -/
def chromatogramArrays (zlibC : Bytes → Bytes) (enc : EncodingInput) (comp : Compression)
    (tA : List Int) (intensity : Option (List Int))
    (others : List (Option Bytes × List Int)) : Except Err (List BinaryDataArray) :=
  exSeq (prepare_array zlibC (encLookup enc (some (strBytes "time array"))) comp
      (some (strBytes "time array")) none tA) (fun tTag =>
    exSeq (prepareOpt zlibC enc comp (strBytes "intensity array") intensity) (fun intTags =>
      exSeq (prepareOtherChromatogram zlibC enc comp tA.length others) (fun otherTags =>
        .ok (tTag :: (intTags ++ otherTags)))))

/-- The parameter-list processing at the head of `write_spectrum`: the
normalized polarity marker is appended when produced and not already
present, then the centroid or profile marker is always appended. -/
def spectrumParams (polarity : PolarityInput) (centroided : Bool)
    (params0 : List Bytes) : List Bytes :=
  (match normalizePolarity polarity with
   | some p => if p ∈ params0 then params0 else params0 ++ [p]
   | none => params0) ++
  [if centroided then strBytes "centroid spectrum" else strBytes "profile spectrum"]

/-- Models `MzMLWriter.write_spectrum`. The pure parameter-list processing
(polarity normalization, centroid marker) precedes everything; then
`default_array_length = len(mz_array)` runs before the `is not None` guard,
so a missing m/z array raises `TypeError` there; then the arrays are
prepared; only after all of that is the record index read from
`spectrum_count` and the counter incremented, and the record written. The
returned pair is the writer state as left behind (Python mutations persist
on an exception) together with the raised exception, if any. -/
def write_spectrum (zlibC : Bytes → Bytes) (st : WriterState)
    (mz_array intensity_array charge_array : Option (List Int)) (id : Option Bytes)
    (polarity : PolarityInput) (centroided : Bool) (compression : Compression)
    (encoding : EncodingInput) (other_arrays : List (Option Bytes × List Int))
    (params0 : List Bytes) : WriterState × Option Err :=
  match mz_array with
  | none => (st, some Err.typeError)
  | some mzA =>
    match spectrumArrays zlibC encoding compression mzA intensity_array charge_array
        other_arrays with
    | .error e => (st, some e)
    | .ok arrs =>
      ({ st with
          spectrum_count := st.spectrum_count + 1,
          output := st.output ++ [Record.spectrum st.spectrum_count id mzA.length arrs
            (spectrumParams polarity centroided params0)] },
       none)

/-- Models `MzMLWriter.write_chromatogram`. `default_array_length =
len(time_array)` runs before the `is not None` guard, so a missing time
array raises `TypeError` there; the chromatogram-type parameter is appended
to the parameter list; the record index is read from `chromatogram_count`
and the counter incremented only after all arrays are prepared. -/
def write_chromatogram (zlibC : Bytes → Bytes) (st : WriterState)
    (time_array intensity_array : Option (List Int)) (id : Option Bytes)
    (chromatogram_type : Bytes) (compression : Compression) (encoding : EncodingInput)
    (other_arrays : List (Option Bytes × List Int)) (params0 : List Bytes) :
    WriterState × Option Err :=
  match time_array with
  | none => (st, some Err.typeError)
  | some tA =>
    match chromatogramArrays zlibC encoding compression tA intensity_array other_arrays with
    | .error e => (st, some e)
    | .ok arrs =>
      ({ st with
          chromatogram_count := st.chromatogram_count + 1,
          output := st.output ++ [Record.chromatogram st.chromatogram_count id tA.length arrs
            (params0 ++ [chromatogram_type])] },
       none)

/-- A successful sink step appended exactly `B` to the buffer and to the
digest input, and advanced the counter by its length. -/
def ExtendsBy (st st' : Sink) (B : Bytes) : Prop :=
  st'.buffer = st.buffer ++ B ∧ st'.checksumFed = st.checksumFed ++ B ∧
  st'.accumulator = st.accumulator + B.length ∧ st'.memLimit = st.memLimit

/-- Everything a successful build writes before the checksum open tag: the
header, the reflowed body, and the complete index-list section, whose
`indexListOffset` element carries the byte count reached just before the
index-list open chunk was written. -/
def trailerPre (body : Bytes) (n : Nat) (blocks : Bytes) : Bytes :=
  headerBytes ++ (body ++ (indexListOpen n ++ (blocks ++ (strBytes "  </indexList>\n" ++
    (strBytes "  <indexListOffset>" ++ (natToDec (headerBytes.length + body.length) ++
      strBytes "</indexListOffset>\n"))))))

/-- Concrete chunk for the C1 witness. -/
def c1Data : Bytes := strBytes "<spectrum id=\"a\">"

/-- Expected sink after writing the concrete chunk into a fresh sink. -/
def c1Sink : Sink :=
  ⟨c1Data, c1Data, 17, none,
   [⟨strBytes "spectrum", strBytes "<spectrum ",
     [(strBytes "a", ⟨0, [(strBytes "id", strBytes "a")]⟩)]⟩,
    ⟨strBytes "chromatogram", strBytes "<chromatogram ", []⟩]⟩

/-- Helper hash for concrete runs: a digest function that ignores its input. -/
def H0 : Bytes → Bytes := fun _ => []

/-- Result of a concrete successful build, used by concrete statements about
the final file. -/
def stEx : Sink :=
  match build H0 [] none with
  | .ok s => s
  | .error _ => initSink none

/-- Identity function on byte lists, standing in for the zlib parameter in
concrete runs where compression is off. -/
def idC : Bytes → Bytes := fun b => b

/-- The concrete `BinaryDataArray` produced in the C4 counterexample run. -/
def c4bda : BinaryDataArray :=
  ⟨strBytes "BwAAAA==", 8, none,
   [strBytes "m/z array", strBytes "no compression", strBytes "32-bit float"]⟩

/-- The record at position `i` of the emitted output, with a default. -/
def recAt (st : WriterState) (i : Nat) : Record :=
  (st.output.get? i).getD (Record.spectrum 0 none 0 [] [])

/-- The binary data array at position `i` of a record, with a default. -/
def bdaAt (r : Record) (i : Nat) : BinaryDataArray :=
  ((Record.arrays r).get? i).getD ⟨[], 0, none, []⟩

/-- The concrete C5 run: m/z of length 2, intensity of length 1. -/
def c5call : WriterState × Option Err :=
  write_spectrum idC ⟨0, 0, []⟩ (some [1, 2]) (some [5]) none none .pnone true .noComp
    (.escalar (.width 32)) [] []

/-- Resulting state of the concrete C5 witness run. -/
def c5ok : WriterState :=
  (write_spectrum idC ⟨0, 0, []⟩ (some [1, 2]) (some [3, 4]) none none .pnone true .noComp
    (.escalar (.width 32)) [(some (strBytes "pressure array"), [9])] []).1

/-- A fixed always-successful spectrum write, for counter iteration. -/
def simpleWrite (st : WriterState) : WriterState × Option Err :=
  write_spectrum idC st (some [1]) none none none .pnone true .noComp
    (.escalar (.width 32)) [] []

/-- N repetitions of the fixed successful write from a fresh writer. -/
def iterSimple : Nat → WriterState
  | 0 => ⟨0, 0, []⟩
  | n + 1 => (simpleWrite (iterSimple n)).1

/-- The concrete C7 run: a chromatogram with an additional array whose type
tag is `None`. -/
def c7call : WriterState × Option Err :=
  write_chromatogram idC ⟨0, 0, []⟩ (some [1, 2]) none none
    (strBytes "selected ion current") .noComp (.escalar (.width 32)) [(none, [5])] []

/-! Theorems: helper lemmas about sequencing and the sink, then the claim
theorems with their witnesses and counterexamples. -/

/-- Inversion of successful sequencing. -/
theorem exSeq_ok {α β : Type} {x : Except Err α} {f : α → Except Err β} {b : β}
    (h : exSeq x f = .ok b) : ∃ a, x = .ok a ∧ f a = .ok b := by
  cases hx : x with
  | error e => rw [hx] at h; exact (Except.noConfusion h)
  | ok a => rw [hx] at h; exact ⟨a, rfl, h⟩

/-- An exception propagates through sequencing. -/
theorem exSeq_error {α β : Type} {x : Except Err α} {f : α → Except Err β} {e : Err}
    (h : x = .error e) : exSeq x f = .error e := by
  subst h; rfl

/-- Sequencing after a successful step continues with its value. -/
theorem exSeq_ok_left {α β : Type} (a : α) (f : α → Except Err β) :
    exSeq (.ok a) f = f a := rfl

theorem extendsBy_trans {st st' st'' : Sink} {B C : Bytes}
    (h : ExtendsBy st st' B) (g : ExtendsBy st' st'' C) : ExtendsBy st st'' (B ++ C) := by
  obtain ⟨h1, h2, h3, h4⟩ := h
  obtain ⟨g1, g2, g3, g4⟩ := g
  refine ⟨?_, ?_, ?_, ?_⟩
  · rw [g1, h1, List.append_assoc]
  · rw [g2, h2, List.append_assoc]
  · rw [g3, h3, List.length_append]; omega
  · rw [g4, h4]

theorem hashAppend_ok {st : Sink} {d : Bytes} {ixs : List TagIndexer} {st' : Sink}
    (h : hashAppend st d ixs = .ok st') : ExtendsBy st st' d ∧ st'.indexers = ixs := by
  unfold hashAppend at h
  split at h
  · exact (Except.noConfusion h)
  · simp only [Except.ok.injEq] at h
    subst h
    exact ⟨⟨rfl, rfl, rfl, rfl⟩, rfl⟩

theorem sinkWrite_extends {st : Sink} {d : Bytes} {st' : Sink}
    (h : sinkWrite st d = .ok st') : ExtendsBy st st' d := by
  unfold sinkWrite at h
  obtain ⟨p, _, hp⟩ := exSeq_ok h
  exact (hashAppend_ok hp).1

/-- Full inversion of a successful sink write: the chunk was offered to the
registered indexers with the pre-write byte counter as the distance, the
resulting indexer list was installed, and the sink advanced by the chunk. -/
theorem sinkWrite_ok_full {st : Sink} {d : Bytes} {st' : Sink}
    (h : sinkWrite st d = .ok st') :
    ∃ p, testIndexers st.indexers d st.accumulator = .ok p ∧
      ExtendsBy st st' d ∧ st'.indexers = p.1 := by
  unfold sinkWrite at h
  obtain ⟨p, hp, hh⟩ := exSeq_ok h
  exact ⟨p, hp, (hashAppend_ok hh).1, (hashAppend_ok hh).2⟩

theorem embed_source_extends :
    ∀ (lines : List Bytes) {st st' : Sink}, embed_source st lines = .ok st' →
      ∃ B, ExtendsBy st st' B := by
  intro lines
  induction lines with
  | nil =>
    intro st st' h
    unfold embed_source at h
    simp only [Except.ok.injEq] at h
    subst h
    exact ⟨[], by simp [ExtendsBy]⟩
  | cons l rest ih =>
    intro st st' h
    unfold embed_source at h
    obtain ⟨st1, hw, hrest⟩ := exSeq_ok h
    obtain ⟨B, hB⟩ := ih hrest
    exact ⟨_, extendsBy_trans (sinkWrite_extends hw) hB⟩

theorem writeOffsetLines_extends :
    ∀ (entries : List (Bytes × Offset)) {st st' : Sink},
      writeOffsetLines st entries = .ok st' → ∃ B, ExtendsBy st st' B := by
  intro entries
  induction entries with
  | nil =>
    intro st st' h
    unfold writeOffsetLines at h
    simp only [Except.ok.injEq] at h
    subst h
    exact ⟨[], by simp [ExtendsBy]⟩
  | cons p rest ih =>
    intro st st' h
    obtain ⟨refId, od⟩ := p
    unfold writeOffsetLines at h
    obtain ⟨st1, hw, hrest⟩ := exSeq_ok h
    obtain ⟨B, hB⟩ := ih hrest
    exact ⟨_, extendsBy_trans (sinkWrite_extends hw) hB⟩

theorem writeIndexBlocks_extends :
    ∀ (ixs : List TagIndexer) {st st' : Sink},
      writeIndexBlocks st ixs = .ok st' → ∃ B, ExtendsBy st st' B := by
  intro ixs
  induction ixs with
  | nil =>
    intro st st' h
    unfold writeIndexBlocks at h
    simp only [Except.ok.injEq] at h
    subst h
    exact ⟨[], by simp [ExtendsBy]⟩
  | cons ix rest ih =>
    intro st st' h
    unfold writeIndexBlocks at h
    split at h
    · obtain ⟨st1, h1, h⟩ := exSeq_ok h
      obtain ⟨st2, h2, h⟩ := exSeq_ok h
      obtain ⟨st3, h3, h⟩ := exSeq_ok h
      obtain ⟨B2, hB2⟩ := writeOffsetLines_extends ix.index h2
      obtain ⟨B4, hB4⟩ := ih h
      exact ⟨_, extendsBy_trans (sinkWrite_extends h1)
        (extendsBy_trans hB2 (extendsBy_trans (sinkWrite_extends h3) hB4))⟩
    · exact ih h

theorem write_index_list_extends {st st' : Sink} (h : write_index_list st = .ok st') :
    ∃ blocks, ExtendsBy st st'
      (indexListOpen (countNonEmpty st.indexers) ++ (blocks ++ (strBytes "  </indexList>\n" ++
       (strBytes "  <indexListOffset>" ++
        (natToDec st.accumulator ++ strBytes "</indexListOffset>\n"))))) := by
  unfold write_index_list at h
  obtain ⟨st1, h1, h⟩ := exSeq_ok h
  obtain ⟨st2, h2, h⟩ := exSeq_ok h
  obtain ⟨st3, h3, h⟩ := exSeq_ok h
  obtain ⟨st4, h4, h⟩ := exSeq_ok h
  obtain ⟨B2, hB2⟩ := writeIndexBlocks_extends st1.indexers h2
  exact ⟨B2, extendsBy_trans (sinkWrite_extends h1)
    (extendsBy_trans hB2 (extendsBy_trans (sinkWrite_extends h3)
      (extendsBy_trans (sinkWrite_extends h4) (sinkWrite_extends h))))⟩

theorem write_checksum_extends {H : Bytes → Bytes} {st st' : Sink}
    (h : write_checksum H st = .ok st') :
    ExtendsBy st st'
      (checksumOpenTag ++ (H (st.checksumFed ++ checksumOpenTag) ++
        strBytes "</fileChecksum>\n")) := by
  unfold write_checksum at h
  obtain ⟨st1, h1, h⟩ := exSeq_ok h
  obtain ⟨st2, h2, h⟩ := exSeq_ok h
  have e1 := sinkWrite_extends h1
  have hfed : st1.checksumFed = st.checksumFed ++ checksumOpenTag := e1.2.1
  have htot := extendsBy_trans e1 (extendsBy_trans (sinkWrite_extends h2) (sinkWrite_extends h))
  rw [hfed] at htot
  exact htot

theorem assocLookup_odInsert {α : Type} (k : Bytes) (v : α) (l : List (Bytes × α)) :
    assocLookup (odInsert k v l) k = some v := by
  induction l with
  | nil => simp [odInsert, assocLookup]
  | cons p rest ih =>
    obtain ⟨k1, v1⟩ := p
    by_cases hk : k1 = k
    · simp [odInsert, hk, assocLookup]
    · simp [odInsert, hk, assocLookup, ih]

/-- Shape of the final buffer of any successful build: prolog, body, index
list (with the offset value equal to the prolog-plus-body byte count), then
the checksum element whose digest input is exactly the bytes up to and
including the checksum open tag, then the close tags. -/
theorem build_ok_shape {H : Bytes → Bytes} {lines : List Bytes} {lim : Option Nat}
    {st' : Sink} (h : build H lines lim = .ok st') :
    ∃ body n blocks,
      st'.buffer = trailerPre body n blocks ++
        (checksumOpenTag ++ (H (trailerPre body n blocks ++ checksumOpenTag) ++
          (strBytes "</fileChecksum>\n" ++ strBytes "</indexedmzML>"))) := by
  unfold build at h
  obtain ⟨st1, h1, h⟩ := exSeq_ok h
  obtain ⟨st2, h2, h⟩ := exSeq_ok h
  obtain ⟨st3, h3, h⟩ := exSeq_ok h
  obtain ⟨st4, h4, h5⟩ := exSeq_ok h
  have e1 := sinkWrite_extends (show sinkWrite (initSink lim) headerBytes = .ok st1 from h1)
  obtain ⟨body, e2⟩ := embed_source_extends lines h2
  obtain ⟨blocks, e3⟩ := write_index_list_extends h3
  have e4 := write_checksum_extends h4
  have e5 := sinkWrite_extends (show sinkWrite st4 (strBytes "</indexedmzML>") = .ok st' from h5)
  have hacc : st2.accumulator = headerBytes.length + body.length := by
    rw [e2.2.2.1, e1.2.2.1]
    simp [initSink]
  rw [hacc] at e3
  have hfed3 : st3.checksumFed =
      headerBytes ++ (body ++ (indexListOpen (countNonEmpty st2.indexers) ++
        (blocks ++ (strBytes "  </indexList>\n" ++ (strBytes "  <indexListOffset>" ++
          (natToDec (headerBytes.length + body.length) ++
            strBytes "</indexListOffset>\n")))))) := by
    rw [e3.2.1, e2.2.1, e1.2.1]
    simp [initSink, List.append_assoc]
  rw [hfed3] at e4
  have E := extendsBy_trans e1 (extendsBy_trans e2 (extendsBy_trans e3
    (extendsBy_trans e4 e5)))
  refine ⟨body, countNonEmpty st2.indexers, blocks, ?_⟩
  have hbuf := E.1
  simp only [initSink] at hbuf
  rw [hbuf]
  simp [trailerPre, List.append_assoc]

/-! Claim theorems. -/

/-- C1: for every chunk written through the indexer sink, the distance
handed to the index set is the byte counter as it stood before the chunk
was appended; on a spectrum-pattern match at offset `s` inside the chunk,
the entry recorded under the id attribute of the chunk is
`distance + s`, installed with overwrite semantics (looking the id up
afterwards returns exactly the new offset record). -/
theorem claim_C1_indexer_distance (buf fed : Bytes) (acc : Nat) (lim : Option Nat)
    (sIdx cIdx : List (Bytes × Offset)) (data : Bytes) (s : Nat) (xid : Bytes)
    (st' : Sink)
    (hm : findSubstring (strBytes "<spectrum ") data = some s)
    (hid : assocLookup (pyDict (attrFindall data)) (strBytes "id") = some xid)
    (hw : sinkWrite ⟨buf, fed, acc, lim,
            [⟨strBytes "spectrum", strBytes "<spectrum ", sIdx⟩,
             ⟨strBytes "chromatogram", strBytes "<chromatogram ", cIdx⟩]⟩ data
          = .ok st') :
    st'.accumulator = acc + data.length ∧
    st'.buffer = buf ++ data ∧
    st'.indexers =
      [⟨strBytes "spectrum", strBytes "<spectrum ",
        odInsert xid ⟨acc + s, pyDict (attrFindall data)⟩ sIdx⟩,
       ⟨strBytes "chromatogram", strBytes "<chromatogram ", cIdx⟩] ∧
    assocLookup (odInsert xid ⟨acc + s, pyDict (attrFindall data)⟩ sIdx) xid =
      some ⟨acc + s, pyDict (attrFindall data)⟩ := by
  have hscan : TagIndexer.scan ⟨strBytes "spectrum", strBytes "<spectrum ", sIdx⟩ data acc
      = .ok (⟨strBytes "spectrum", strBytes "<spectrum ",
              odInsert xid ⟨acc + s, pyDict (attrFindall data)⟩ sIdx⟩, true) := by
    unfold TagIndexer.scan
    simp only [hm, hid]
  have htest : testIndexers
      [⟨strBytes "spectrum", strBytes "<spectrum ", sIdx⟩,
       ⟨strBytes "chromatogram", strBytes "<chromatogram ", cIdx⟩] data acc
      = .ok ([⟨strBytes "spectrum", strBytes "<spectrum ",
               odInsert xid ⟨acc + s, pyDict (attrFindall data)⟩ sIdx⟩,
              ⟨strBytes "chromatogram", strBytes "<chromatogram ", cIdx⟩], true) := by
    unfold testIndexers
    rw [hscan]
  obtain ⟨p, hp, hext, hix⟩ := sinkWrite_ok_full hw
  have hpv := htest.symm.trans hp
  simp only [Except.ok.injEq] at hpv
  subst hpv
  exact ⟨hext.2.2.1, hext.1, hix, assocLookup_odInsert _ _ _⟩

set_option maxRecDepth 100000 in
/-- Witness for C1 at a concrete chunk. -/
theorem claim_C1_witness :
    c1Sink.accumulator = 0 + c1Data.length ∧
    c1Sink.buffer = [] ++ c1Data ∧
    c1Sink.indexers =
      [⟨strBytes "spectrum", strBytes "<spectrum ",
        odInsert (strBytes "a") (⟨0 + 0, pyDict (attrFindall c1Data)⟩ : Offset) []⟩,
       ⟨strBytes "chromatogram", strBytes "<chromatogram ", []⟩] ∧
    assocLookup (odInsert (strBytes "a")
        (⟨0 + 0, pyDict (attrFindall c1Data)⟩ : Offset) []) (strBytes "a") =
      some (⟨0 + 0, pyDict (attrFindall c1Data)⟩ : Offset) :=
  claim_C1_indexer_distance [] [] 0 none [] [] c1Data 0 (strBytes "a") c1Sink rfl rfl rfl

/-- C2: the stored `fileChecksum` is the digest of exactly the bytes written
through the sink from the prolog up to and including the checksum open tag;
the digest text itself is not part of its own input (the final buffer is
that prefix, then the digest text, then only the close tags); and
recomputing the digest over that prefix of the final file reproduces the
stored value. -/
theorem claim_C2_checksum_input (H : Bytes → Bytes) (lines : List Bytes)
    (lim : Option Nat) (st' : Sink) (h : build H lines lim = .ok st') :
    ∃ pre, st'.buffer = (pre ++ checksumOpenTag) ++
        (H (pre ++ checksumOpenTag) ++
          (strBytes "</fileChecksum>\n" ++ strBytes "</indexedmzML>")) ∧
      List.take (pre ++ checksumOpenTag).length st'.buffer = pre ++ checksumOpenTag ∧
      H (List.take (pre ++ checksumOpenTag).length st'.buffer) = H (pre ++ checksumOpenTag) := by
  obtain ⟨body, n, blocks, hbuf⟩ := build_ok_shape h
  refine ⟨trailerPre body n blocks, ?_, ?_, ?_⟩
  · rw [hbuf]
    simp [List.append_assoc]
  · rw [hbuf, show trailerPre body n blocks ++
      (checksumOpenTag ++ (H (trailerPre body n blocks ++ checksumOpenTag) ++
        (strBytes "</fileChecksum>\n" ++ strBytes "</indexedmzML>"))) =
      (trailerPre body n blocks ++ checksumOpenTag) ++
      (H (trailerPre body n blocks ++ checksumOpenTag) ++
        (strBytes "</fileChecksum>\n" ++ strBytes "</indexedmzML>")) by
        simp [List.append_assoc]]
    exact List.take_left _ _
  · rw [hbuf, show trailerPre body n blocks ++
      (checksumOpenTag ++ (H (trailerPre body n blocks ++ checksumOpenTag) ++
        (strBytes "</fileChecksum>\n" ++ strBytes "</indexedmzML>"))) =
      (trailerPre body n blocks ++ checksumOpenTag) ++
      (H (trailerPre body n blocks ++ checksumOpenTag) ++
        (strBytes "</fileChecksum>\n" ++ strBytes "</indexedmzML>")) by
        simp [List.append_assoc]]
    rw [List.take_left]

set_option maxRecDepth 1000000 in
set_option maxHeartbeats 8000000 in
/-- Witness for C2 on a concrete build. -/
theorem claim_C2_witness :
    ∃ pre, stEx.buffer = (pre ++ checksumOpenTag) ++
        (H0 (pre ++ checksumOpenTag) ++
          (strBytes "</fileChecksum>\n" ++ strBytes "</indexedmzML>")) ∧
      List.take (pre ++ checksumOpenTag).length stEx.buffer = pre ++ checksumOpenTag ∧
      H0 (List.take (pre ++ checksumOpenTag).length stEx.buffer) =
        H0 (pre ++ checksumOpenTag) :=
  claim_C2_checksum_input H0 [] none stEx rfl

/-- C3 (amended): the emitted `indexListOffset` value equals the absolute
byte offset of the start of the two-space indentation preceding
`<indexList`, so the `<` character that opens `<indexList` sits at
`indexListOffset + 2`, not at `indexListOffset`: at the recorded offset the
final file holds two spaces and only then the `<`. -/
theorem claim_C3_offset_points_at_indent {H : Bytes → Bytes} {lines : List Bytes}
    {lim : Option Nat} {st' : Sink} (h : build H lines lim = .ok st') :
    ∃ pre mid tail r,
      st'.buffer = pre ++ (strBytes "  <indexList count=" ++ (mid ++
        (strBytes "  <indexListOffset>" ++ (natToDec pre.length ++
          (strBytes "</indexListOffset>\n" ++ tail))))) ∧
      List.drop pre.length st'.buffer = 32 :: 32 :: 60 :: r := by
  obtain ⟨body, n, blocks, hbuf⟩ := build_ok_shape h
  refine ⟨headerBytes ++ body,
    [34] ++ (natToDec n ++ ([34, 62, 10] ++ (blocks ++ strBytes "  </indexList>\n"))),
    checksumOpenTag ++ (H (trailerPre body n blocks ++ checksumOpenTag) ++
      (strBytes "</fileChecksum>\n" ++ strBytes "</indexedmzML>")),
    strBytes "indexList count=" ++ ([34] ++ (natToDec n ++ ([34, 62, 10] ++ (blocks ++
      (strBytes "  </indexList>\n" ++ (strBytes "  <indexListOffset>" ++
        (natToDec (headerBytes ++ body).length ++ (strBytes "</indexListOffset>\n" ++
          (checksumOpenTag ++ (H (trailerPre body n blocks ++ checksumOpenTag) ++
            (strBytes "</fileChecksum>\n" ++ strBytes "</indexedmzML>"))))))))))),
    ?_, ?_⟩
  · rw [hbuf]
    simp [trailerPre, indexListOpen, List.append_assoc, List.length_append]
  · rw [hbuf, show trailerPre body n blocks ++
      (checksumOpenTag ++ (H (trailerPre body n blocks ++ checksumOpenTag) ++
        (strBytes "</fileChecksum>\n" ++ strBytes "</indexedmzML>"))) =
      (headerBytes ++ body) ++
      ((32 :: 32 :: 60 :: strBytes "indexList count=") ++ ([34] ++ (natToDec n ++
        ([34, 62, 10] ++ (blocks ++ (strBytes "  </indexList>\n" ++
          (strBytes "  <indexListOffset>" ++ (natToDec (headerBytes.length + body.length) ++
            (strBytes "</indexListOffset>\n" ++ (checksumOpenTag ++
              (H (trailerPre body n blocks ++ checksumOpenTag) ++
                (strBytes "</fileChecksum>\n" ++ strBytes "</indexedmzML>")))))))))))) by
        simp [trailerPre, indexListOpen, List.append_assoc]
        rfl]
    rw [List.drop_left]
    simp [List.append_assoc, List.length_append]

set_option maxRecDepth 1000000 in
set_option maxHeartbeats 8000000 in
/-- C3 counterexample: in a concrete successful build, the file carries the
element `<indexListOffset>247</indexListOffset>` (247 being the byte count
when the index list began), yet the byte at offset 247 of the final file is
a space, and the `<` that opens `<indexList` sits at offset 249 = 247 + 2.
So the emitted value is not the offset of the `<` character. -/
theorem claim_C3_counterexample :
    build H0 [] none = .ok stEx ∧
    headerBytes.length = 247 ∧
    (findSubstring (strBytes "<indexListOffset>" ++ (natToDec 247 ++
      strBytes "</indexListOffset>")) stEx.buffer).isSome = true ∧
    List.get? stEx.buffer 247 = some 32 ∧
    List.get? stEx.buffer 249 = some 60 ∧
    findSubstring (strBytes "<indexList ") stEx.buffer = some 249 ∧
    (249 : Nat) ≠ 247 :=
  ⟨rfl, rfl, rfl, rfl, rfl, rfl, by decide⟩

set_option maxRecDepth 1000000 in
set_option maxHeartbeats 8000000 in
/-- Witness for the amended C3 on a concrete build. -/
theorem claim_C3_witness :
    ∃ pre mid tail r,
      stEx.buffer = pre ++ (strBytes "  <indexList count=" ++ (mid ++
        (strBytes "  <indexListOffset>" ++ (natToDec pre.length ++
          (strBytes "</indexListOffset>\n" ++ tail))))) ∧
      List.drop pre.length stEx.buffer = 32 :: 32 :: 60 :: r :=
  @claim_C3_offset_points_at_indent H0 [] none stEx rfl

/-- C8: when buffering the indexed rewrite exhausts the memory budget, the
`MemoryError` is caught at the pipeline boundary in `MzMLWriter.format` and
the destination keeps the original plain document bytes unchanged. -/
theorem claim_C8_abort_preserves_dest (H : Bytes → Bytes) (lines : List Bytes)
    (lim : Option Nat) (dest : Bytes)
    (h : build H lines lim = .error Err.memoryError) :
    format H lines lim dest = .ok dest := by
  unfold format
  rw [h]

set_option maxRecDepth 100000 in
/-- Witness for C8: a five-byte memory budget makes the very first header
write exhaust memory, and the destination bytes survive untouched. -/
theorem claim_C8_witness :
    build H0 [] (some 5) = .error Err.memoryError ∧
    format H0 [] (some 5) (strBytes "plain document") = .ok (strBytes "plain document") :=
  ⟨rfl, claim_C8_abort_preserves_dest H0 [] (some 5) (strBytes "plain document") rfl⟩

/-- C10: calling `write_spectrum` with no m/z array, or `write_chromatogram`
with no time array, raises `TypeError` while computing the default array
length, before any encoding runs, any record is emitted, or any counter is
advanced: the writer state is returned unchanged. -/
theorem claim_C10_primary_required (zlibC : Bytes → Bytes) (st : WriterState)
    (ia ca : Option (List Int)) (sid : Option Bytes) (pol : PolarityInput)
    (cent : Bool) (comp : Compression) (enc : EncodingInput)
    (others : List (Option Bytes × List Int)) (ps : List Bytes)
    (cia : Option (List Int)) (cid : Option Bytes) (ct : Bytes) :
    write_spectrum zlibC st none ia ca sid pol cent comp enc others ps =
      (st, some Err.typeError) ∧
    write_chromatogram zlibC st none cia cid ct comp enc others ps =
      (st, some Err.typeError) :=
  ⟨rfl, rfl⟩

/-- C9 counterexample: a chunk containing both a spectrum open tag and a
chromatogram open tag is consumed by the spectrum indexer alone; the scan
stops there and the chromatogram indexer never sees the chunk, although
scanning it directly would have recorded an entry. -/
theorem claim_C9_counterexample :
    testIndexers [spectrumIndexer0, chromatogramIndexer0]
        (strBytes "<spectrum id=\"s1\"> <chromatogram id=\"c1\">") 5 =
      .ok ([⟨strBytes "spectrum", strBytes "<spectrum ",
             [(strBytes "c1", ⟨5, [(strBytes "id", strBytes "c1")]⟩)]⟩,
            chromatogramIndexer0], true) ∧
    TagIndexer.scan chromatogramIndexer0
        (strBytes "<spectrum id=\"s1\"> <chromatogram id=\"c1\">") 5 =
      .ok (⟨strBytes "chromatogram", strBytes "<chromatogram ",
            [(strBytes "c1", ⟨24, [(strBytes "id", strBytes "c1")]⟩)]⟩, true) ∧
    chromatogramIndexer0.index = [] :=
  ⟨rfl, rfl, rfl⟩

/-- C9 (amended): each chunk is offered to the indexers in registration
order only until the first indexer reports a match; the indexers after a
matching one are not offered the chunk, while a non-matching indexer passes
the chunk on unchanged. -/
theorem claim_C9_short_circuit :
    (∀ (ix : TagIndexer) (rest : List TagIndexer) (data : Bytes) (d : Nat)
        (ix1 : TagIndexer),
        ix.scan data d = .ok (ix1, true) →
        testIndexers (ix :: rest) data d = .ok (ix1 :: rest, true)) ∧
    (∀ (ix : TagIndexer) (rest : List TagIndexer) (data : Bytes) (d : Nat)
        (ix1 : TagIndexer) (rest1 : List TagIndexer) (b : Bool),
        ix.scan data d = .ok (ix1, false) →
        testIndexers rest data d = .ok (rest1, b) →
        testIndexers (ix :: rest) data d = .ok (ix1 :: rest1, b)) := by
  constructor
  · intro ix rest data d ix1 h
    unfold testIndexers
    rw [h]
  · intro ix rest data d ix1 rest1 b h1 h2
    unfold testIndexers
    rw [h1, h2]

/-- Witness for C9 (amended), instantiating both conjuncts on concrete
indexers and chunks. -/
theorem claim_C9_witness :
    testIndexers [spectrumIndexer0, chromatogramIndexer0] (strBytes "<spectrum id=\"a\">") 0 =
      .ok ([⟨strBytes "spectrum", strBytes "<spectrum ",
             [(strBytes "a", ⟨0, [(strBytes "id", strBytes "a")]⟩)]⟩,
            chromatogramIndexer0], true) ∧
    testIndexers [chromatogramIndexer0] (strBytes "no match here") 3 =
      .ok ([chromatogramIndexer0], false) :=
  ⟨claim_C9_short_circuit.1 spectrumIndexer0 [chromatogramIndexer0]
      (strBytes "<spectrum id=\"a\">") 0 _ rfl,
   claim_C9_short_circuit.2 chromatogramIndexer0 [] (strBytes "no match here") 3
      chromatogramIndexer0 [] false rfl rfl⟩

/-! Codec and record-assembly lemmas. -/

theorem base64Encode_length : ∀ l : Bytes, (base64Encode l).length = 4 * ((l.length + 2) / 3)
  | [] => by simp [base64Encode]
  | [a] => by simp [base64Encode]
  | [a, b] => by simp [base64Encode]
  | a :: b :: c :: rest => by
    have ih := base64Encode_length rest
    simp [base64Encode, ih]
    omega

/-- Inversion of a successful `_prepare_array` call: the dtype resolved, the
payload is the base64 text of the compressed buffer, the declared encoded
length is the length of that base64 text, and the length override is set
exactly when a default was supplied and differs. -/
theorem prepare_array_ok {zlibC : Bytes → Bytes} {k : EncodingKey} {c : Compression}
    {at? : Option Bytes} {dal? : Option Nat} {a : List Int} {bda : BinaryDataArray}
    (h : prepare_array zlibC k c at? dal? a = .ok bda) :
    ∃ d, encoding_map k = .ok d ∧
      bda.payload = base64Encode (applyCompression zlibC c (rawBytes d a)) ∧
      bda.encodedLength = (base64Encode (applyCompression zlibC c (rawBytes d a))).length ∧
      bda.arrayLength = overrideFor dal? a.length := by
  unfold prepare_array at h
  cases hk : encoding_map k with
  | error e => rw [hk] at h; exact (Except.noConfusion h)
  | ok d =>
    rw [hk] at h
    simp only [Except.ok.injEq] at h
    subst h
    exact ⟨d, rfl, rfl, rfl, rfl⟩

/-- C4 counterexample: one float32 element, no compression. The compressed
(pre-base64) buffer has 4 bytes; the recorded encodedLength is 8, the length
of the base64 text, not 4. -/
theorem claim_C4_counterexample :
    prepare_array idC (.width 32) .noComp (some (strBytes "m/z array")) none [7] =
      .ok ⟨strBytes "BwAAAA==", 8, none,
           [strBytes "m/z array", strBytes "no compression", strBytes "32-bit float"]⟩ ∧
    (applyCompression idC .noComp (rawBytes .f32 [7])).length = 4 ∧
    (8 : Nat) ≠ 4 :=
  ⟨rfl, rfl, by decide⟩

/-- C4 (amended): the recorded `encodedLength` is the length of the base64
text of the compressed buffer, namely `4 * ((compressedLen + 2) / 3)`; for
any nonempty compressed buffer this differs from the compressed (pre-base64)
length. -/
theorem claim_C4_encoded_is_base64_length (zlibC : Bytes → Bytes) (k : EncodingKey)
    (c : Compression) (at? : Option Bytes) (dal? : Option Nat) (a : List Int)
    (bda : BinaryDataArray) (h : prepare_array zlibC k c at? dal? a = .ok bda) :
    ∃ d, encoding_map k = .ok d ∧
      bda.encodedLength = (base64Encode (applyCompression zlibC c (rawBytes d a))).length ∧
      bda.encodedLength = 4 * (((applyCompression zlibC c (rawBytes d a)).length + 2) / 3) ∧
      (1 ≤ (applyCompression zlibC c (rawBytes d a)).length →
        bda.encodedLength ≠ (applyCompression zlibC c (rawBytes d a)).length) := by
  obtain ⟨d, hk, hpay, hlen, harr⟩ := prepare_array_ok h
  refine ⟨d, hk, hlen, ?_, ?_⟩
  · rw [hlen, base64Encode_length]
  · intro h1
    rw [hlen, base64Encode_length]
    omega

/-- Witness for the amended C4 at the concrete one-element array. -/
theorem claim_C4_witness :
    ∃ d, encoding_map (.width 32) = .ok d ∧
      c4bda.encodedLength = (base64Encode (applyCompression idC .noComp (rawBytes d [7]))).length ∧
      c4bda.encodedLength = 4 * (((applyCompression idC .noComp (rawBytes d [7])).length + 2) / 3) ∧
      (1 ≤ (applyCompression idC .noComp (rawBytes d [7])).length →
        c4bda.encodedLength ≠ (applyCompression idC .noComp (rawBytes d [7])).length) :=
  claim_C4_encoded_is_base64_length idC (.width 32) .noComp (some (strBytes "m/z array"))
    none [7] c4bda rfl

theorem prepareOpt_ok {zlibC : Bytes → Bytes} {enc : EncodingInput} {comp : Compression}
    {atype : Bytes} {oa : Option (List Int)} {tags : List BinaryDataArray}
    (h : prepareOpt zlibC enc comp atype oa = .ok tags) :
    ∀ t ∈ tags, t.arrayLength = none := by
  cases oa with
  | none =>
    unfold prepareOpt at h
    simp only [Except.ok.injEq] at h
    subst h
    intro t ht
    cases ht
  | some a =>
    unfold prepareOpt at h
    obtain ⟨tag, hp, h2⟩ := exSeq_ok h
    simp only [Except.ok.injEq] at h2
    subst h2
    intro t ht
    obtain ⟨d, _, _, _, harr⟩ := prepare_array_ok hp
    simp only [List.mem_singleton] at ht
    subst ht
    simpa [overrideFor] using harr

theorem prepareOtherSpectrum_ok {zlibC : Bytes → Bytes} {enc : EncodingInput}
    {comp : Compression} {dal : Nat} :
    ∀ {others : List (Option Bytes × List Int)} {tags : List BinaryDataArray},
      prepareOtherSpectrum zlibC enc comp dal others = .ok tags →
      List.Forall₂ (fun (t : BinaryDataArray) (p : Option Bytes × List Int) =>
        t.arrayLength = if p.2.length = dal then none else some p.2.length) tags others := by
  intro others
  induction others with
  | nil =>
    intro tags h
    unfold prepareOtherSpectrum at h
    simp only [Except.ok.injEq] at h
    subst h
    exact List.Forall₂.nil
  | cons p rest ih =>
    intro tags h
    obtain ⟨t?, b⟩ := p
    cases t? with
    | none =>
      unfold prepareOtherSpectrum at h
      exact (Except.noConfusion h)
    | some t =>
      unfold prepareOtherSpectrum at h
      obtain ⟨tag, hp, h⟩ := exSeq_ok h
      obtain ⟨tags1, hrest, h⟩ := exSeq_ok h
      simp only [Except.ok.injEq] at h
      subst h
      refine List.Forall₂.cons ?_ (ih hrest)
      obtain ⟨d, _, _, _, harr⟩ := prepare_array_ok hp
      simpa [overrideFor] using harr

theorem prepareOtherSpectrum_none {zlibC : Bytes → Bytes} {enc : EncodingInput}
    {comp : Compression} {dal : Nat} :
    ∀ {others : List (Option Bytes × List Int)} {arr : List Int},
      (none, arr) ∈ others →
      ∃ e, prepareOtherSpectrum zlibC enc comp dal others = .error e := by
  intro others
  induction others with
  | nil => intro arr h; cases h
  | cons p rest ih =>
    intro arr h
    obtain ⟨t?, b⟩ := p
    cases t? with
    | none => exact ⟨Err.valueError, rfl⟩
    | some t =>
      have hmem : (none, arr) ∈ rest := by
        cases h with
        | tail _ hmem => exact hmem
      unfold prepareOtherSpectrum
      cases hp : prepare_array zlibC (encLookup enc (some t)) comp (some t) (some dal) b with
      | error e2 => exact ⟨e2, exSeq_error rfl⟩
      | ok tag =>
        obtain ⟨e, he⟩ := ih hmem
        exact ⟨e, by simp only [exSeq_ok_left]; exact exSeq_error he⟩

theorem spectrumArrays_ok {zlibC : Bytes → Bytes} {enc : EncodingInput} {comp : Compression}
    {mzA : List Int} {ia ca : Option (List Int)} {others : List (Option Bytes × List Int)}
    {arrs : List BinaryDataArray}
    (h : spectrumArrays zlibC enc comp mzA ia ca others = .ok arrs) :
    ∃ mzTag intTags chTags otherTags,
      arrs = mzTag :: (intTags ++ (chTags ++ otherTags)) ∧
      mzTag.arrayLength = none ∧
      (∀ t ∈ intTags, t.arrayLength = none) ∧
      (∀ t ∈ chTags, t.arrayLength = none) ∧
      List.Forall₂ (fun (t : BinaryDataArray) (p : Option Bytes × List Int) =>
        t.arrayLength = if p.2.length = mzA.length then none else some p.2.length)
        otherTags others := by
  unfold spectrumArrays at h
  obtain ⟨mzTag, h1, h⟩ := exSeq_ok h
  obtain ⟨intTags, h2, h⟩ := exSeq_ok h
  obtain ⟨chTags, h3, h⟩ := exSeq_ok h
  obtain ⟨otherTags, h4, h⟩ := exSeq_ok h
  simp only [Except.ok.injEq] at h
  subst h
  obtain ⟨d, _, _, _, hmz⟩ := prepare_array_ok h1
  exact ⟨mzTag, intTags, chTags, otherTags, rfl, by simpa [overrideFor] using hmz,
    prepareOpt_ok h2, prepareOpt_ok h3, prepareOtherSpectrum_ok h4⟩

theorem spectrumArrays_none_mem {zlibC : Bytes → Bytes} {enc : EncodingInput}
    {comp : Compression} {mzA : List Int} {ia ca : Option (List Int)}
    {others : List (Option Bytes × List Int)} {arr : List Int}
    (hmem : (none, arr) ∈ others) :
    ∃ e, spectrumArrays zlibC enc comp mzA ia ca others = .error e := by
  unfold spectrumArrays
  cases h1 : prepare_array zlibC (encLookup enc (some (strBytes "m/z array"))) comp
      (some (strBytes "m/z array")) none mzA with
  | error e => exact ⟨e, exSeq_error rfl⟩
  | ok mzTag =>
    simp only [exSeq_ok_left]
    cases h2 : prepareOpt zlibC enc comp (strBytes "intensity array") ia with
    | error e => exact ⟨e, exSeq_error rfl⟩
    | ok intTags =>
      simp only [exSeq_ok_left]
      cases h3 : prepareOpt zlibC enc comp (strBytes "charge array") ca with
      | error e => exact ⟨e, exSeq_error rfl⟩
      | ok chTags =>
        simp only [exSeq_ok_left]
        obtain ⟨e, he⟩ := prepareOtherSpectrum_none hmem
        exact ⟨e, exSeq_error he⟩

/-- Inversion of a successful `write_spectrum` call. -/
theorem write_spectrum_ok_inv {zlibC : Bytes → Bytes} {st : WriterState}
    {mz ia ca : Option (List Int)} {sid : Option Bytes} {pol : PolarityInput}
    {cent : Bool} {comp : Compression} {enc : EncodingInput}
    {others : List (Option Bytes × List Int)} {ps : List Bytes} {st' : WriterState}
    (h : write_spectrum zlibC st mz ia ca sid pol cent comp enc others ps = (st', none)) :
    ∃ mzA arrs, mz = some mzA ∧
      spectrumArrays zlibC enc comp mzA ia ca others = .ok arrs ∧
      st' = { st with
        spectrum_count := st.spectrum_count + 1,
        output := st.output ++ [Record.spectrum st.spectrum_count sid mzA.length arrs
          (spectrumParams pol cent ps)] } := by
  unfold write_spectrum at h
  split at h
  · simp at h
  · split at h
    · simp at h
    · rename_i mzA harrs arrs heq
      simp only [Prod.mk.injEq] at h
      exact ⟨mzA, arrs, rfl, heq, h.1.symm⟩

/-- A `write_spectrum` call that raises leaves the writer state untouched. -/
theorem write_spectrum_err_inv {zlibC : Bytes → Bytes} {st : WriterState}
    {mz ia ca : Option (List Int)} {sid : Option Bytes} {pol : PolarityInput}
    {cent : Bool} {comp : Compression} {enc : EncodingInput}
    {others : List (Option Bytes × List Int)} {ps : List Bytes} {st' : WriterState}
    {e : Err}
    (h : write_spectrum zlibC st mz ia ca sid pol cent comp enc others ps = (st', some e)) :
    st' = st := by
  unfold write_spectrum at h
  split at h
  · simp only [Prod.mk.injEq] at h
    exact h.1.symm
  · split at h
    · simp only [Prod.mk.injEq] at h
      exact h.1.symm
    · simp at h

/-- Inversion of a successful `write_chromatogram` call. -/
theorem write_chromatogram_ok_inv {zlibC : Bytes → Bytes} {st : WriterState}
    {t ia : Option (List Int)} {cid : Option Bytes} {ct : Bytes} {comp : Compression}
    {enc : EncodingInput} {others : List (Option Bytes × List Int)} {ps : List Bytes}
    {st' : WriterState}
    (h : write_chromatogram zlibC st t ia cid ct comp enc others ps = (st', none)) :
    ∃ tA arrs, t = some tA ∧
      chromatogramArrays zlibC enc comp tA ia others = .ok arrs ∧
      st' = { st with
        chromatogram_count := st.chromatogram_count + 1,
        output := st.output ++ [Record.chromatogram st.chromatogram_count cid tA.length arrs
          (ps ++ [ct])] } := by
  unfold write_chromatogram at h
  split at h
  · simp at h
  · split at h
    · simp at h
    · rename_i tA harrs arrs heq
      simp only [Prod.mk.injEq] at h
      exact ⟨tA, arrs, rfl, heq, h.1.symm⟩

/-- A `write_chromatogram` call that raises leaves the writer state
untouched. -/
theorem write_chromatogram_err_inv {zlibC : Bytes → Bytes} {st : WriterState}
    {t ia : Option (List Int)} {cid : Option Bytes} {ct : Bytes} {comp : Compression}
    {enc : EncodingInput} {others : List (Option Bytes × List Int)} {ps : List Bytes}
    {st' : WriterState} {e : Err}
    (h : write_chromatogram zlibC st t ia cid ct comp enc others ps = (st', some e)) :
    st' = st := by
  unfold write_chromatogram at h
  split at h
  · simp only [Prod.mk.injEq] at h
    exact h.1.symm
  · split at h
    · simp only [Prod.mk.injEq] at h
      exact h.1.symm
    · simp at h

/-- C5 counterexample: with a primary m/z array of length 2 and an intensity
array of length 1 in the same record, the emitted intensity array (position
1) carries no explicit length override, although its length 1 differs from
the default length 2. -/
theorem claim_C5_counterexample :
    c5call.2 = none ∧
    Record.defaultLen (recAt c5call.1 0) = 2 ∧
    (Record.arrays (recAt c5call.1 0)).length = 2 ∧
    (bdaAt (recAt c5call.1 0) 1).arrayLength = none ∧
    (bdaAt (recAt c5call.1 0) 1).encodedLength = 8 ∧
    [(5 : Int)].length = 1 ∧
    (1 : Nat) ≠ 2 :=
  ⟨rfl, rfl, rfl, rfl, rfl, rfl, by decide⟩

/-- C5 (amended): in every successfully written spectrum record, the
primary m/z array carries no length override, the intensity and charge
arrays never carry one either (even when their lengths differ from the
default), and each additional caller-supplied array carries an override
equal to its element count exactly when its length differs from the
default. -/
theorem claim_C5_override_policy (zlibC : Bytes → Bytes) (st : WriterState)
    (mzA : List Int) (ia ca : Option (List Int)) (sid : Option Bytes)
    (pol : PolarityInput) (cent : Bool) (comp : Compression) (enc : EncodingInput)
    (others : List (Option Bytes × List Int)) (ps : List Bytes) (st' : WriterState)
    (h : write_spectrum zlibC st (some mzA) ia ca sid pol cent comp enc others ps =
      (st', none)) :
    ∃ rec mzTag intTags chTags otherTags,
      st'.output = st.output ++ [rec] ∧
      Record.defaultLen rec = mzA.length ∧
      Record.arrays rec = mzTag :: (intTags ++ (chTags ++ otherTags)) ∧
      mzTag.arrayLength = none ∧
      (∀ t ∈ intTags, t.arrayLength = none) ∧
      (∀ t ∈ chTags, t.arrayLength = none) ∧
      List.Forall₂ (fun (t : BinaryDataArray) (p : Option Bytes × List Int) =>
        t.arrayLength = if p.2.length = mzA.length then none else some p.2.length)
        otherTags others := by
  obtain ⟨mzA1, arrs, hmz, harr, hst⟩ := write_spectrum_ok_inv h
  injection hmz with hmz
  subst hmz
  obtain ⟨mzTag, intTags, chTags, otherTags, harrs, h1, h2, h3, h4⟩ := spectrumArrays_ok harr
  subst hst
  exact ⟨Record.spectrum st.spectrum_count sid mzA.length arrs (spectrumParams pol cent ps),
    mzTag, intTags, chTags, otherTags, rfl, rfl, by simp [Record.arrays, harrs],
    h1, h2, h3, h4⟩

/-- Witness for the amended C5 at a concrete call with one additional
array of differing length. -/
theorem claim_C5_witness :
    ∃ rec mzTag intTags chTags otherTags,
      c5ok.output = [] ++ [rec] ∧
      Record.defaultLen rec = [(1 : Int), 2].length ∧
      Record.arrays rec = mzTag :: (intTags ++ (chTags ++ otherTags)) ∧
      mzTag.arrayLength = none ∧
      (∀ t ∈ intTags, t.arrayLength = none) ∧
      (∀ t ∈ chTags, t.arrayLength = none) ∧
      List.Forall₂ (fun (t : BinaryDataArray) (p : Option Bytes × List Int) =>
        t.arrayLength = if p.2.length = [(1 : Int), 2].length then none else some p.2.length)
        otherTags [(some (strBytes "pressure array"), [9])] :=
  claim_C5_override_policy idC ⟨0, 0, []⟩ [1, 2] (some [3, 4]) none none .pnone true .noComp
    (.escalar (.width 32)) [(some (strBytes "pressure array"), [9])] [] c5ok rfl

/-- C6 counterexample: a call that fails during array encoding (an
additional array with a `None` type raises `ValueError`) leaves the
spectrum counter at 0 instead of advancing it to 1, because the counter is
read and incremented only after all arrays are prepared. -/
theorem claim_C6_counterexample :
    write_spectrum idC ⟨0, 0, []⟩ (some [1, 2]) none none none .pnone true .noComp
        (.escalar (.width 32)) [(none, [3])] [] =
      (⟨0, 0, []⟩, some Err.valueError) ∧
    (0 : Nat) ≠ 0 + 1 :=
  ⟨rfl, by decide⟩

theorem simpleWrite_none (st : WriterState) : (simpleWrite st).2 = none := rfl

/-- C6 (amended): a successful call assigns the record index from the
per-kind counter and increments it exactly once; a call that raises leaves
the writer state, counters included, untouched, because all array encoding
precedes the increment; and N sequential successful writes produce indices
0..N-1 in call order with no gaps or repeats. -/
theorem claim_C6_counter_increment :
    (∀ (zlibC : Bytes → Bytes) (st : WriterState) (mz ia ca : Option (List Int))
        (sid : Option Bytes) (pol : PolarityInput) (cent : Bool) (comp : Compression)
        (enc : EncodingInput) (others : List (Option Bytes × List Int)) (ps : List Bytes)
        (st' : WriterState),
        write_spectrum zlibC st mz ia ca sid pol cent comp enc others ps = (st', none) →
        st'.spectrum_count = st.spectrum_count + 1 ∧
        st'.chromatogram_count = st.chromatogram_count ∧
        ∃ rec, st'.output = st.output ++ [rec] ∧ Record.index rec = st.spectrum_count) ∧
    (∀ (zlibC : Bytes → Bytes) (st : WriterState) (mz ia ca : Option (List Int))
        (sid : Option Bytes) (pol : PolarityInput) (cent : Bool) (comp : Compression)
        (enc : EncodingInput) (others : List (Option Bytes × List Int)) (ps : List Bytes)
        (st' : WriterState) (e : Err),
        write_spectrum zlibC st mz ia ca sid pol cent comp enc others ps = (st', some e) →
        st' = st) ∧
    (∀ (zlibC : Bytes → Bytes) (st : WriterState) (t ia : Option (List Int))
        (cid : Option Bytes) (ct : Bytes) (comp : Compression) (enc : EncodingInput)
        (others : List (Option Bytes × List Int)) (ps : List Bytes) (st' : WriterState),
        write_chromatogram zlibC st t ia cid ct comp enc others ps = (st', none) →
        st'.chromatogram_count = st.chromatogram_count + 1 ∧
        st'.spectrum_count = st.spectrum_count ∧
        ∃ rec, st'.output = st.output ++ [rec] ∧ Record.index rec = st.chromatogram_count) ∧
    (∀ (zlibC : Bytes → Bytes) (st : WriterState) (t ia : Option (List Int))
        (cid : Option Bytes) (ct : Bytes) (comp : Compression) (enc : EncodingInput)
        (others : List (Option Bytes × List Int)) (ps : List Bytes) (st' : WriterState)
        (e : Err),
        write_chromatogram zlibC st t ia cid ct comp enc others ps = (st', some e) →
        st' = st) ∧
    (∀ N : Nat, (iterSimple N).spectrum_count = N ∧
        List.map Record.index (iterSimple N).output = List.range N) := by
  refine ⟨?_, ?_, ?_, ?_, ?_⟩
  · intro zlibC st mz ia ca sid pol cent comp enc others ps st' h
    obtain ⟨mzA, arrs, hmz, harr, hst⟩ := write_spectrum_ok_inv h
    subst hst
    exact ⟨rfl, rfl,
      ⟨Record.spectrum st.spectrum_count sid mzA.length arrs (spectrumParams pol cent ps),
       rfl, rfl⟩⟩
  · intro zlibC st mz ia ca sid pol cent comp enc others ps st' e h
    exact write_spectrum_err_inv h
  · intro zlibC st t ia cid ct comp enc others ps st' h
    obtain ⟨tA, arrs, ht, harr, hst⟩ := write_chromatogram_ok_inv h
    subst hst
    exact ⟨rfl, rfl,
      ⟨Record.chromatogram st.chromatogram_count cid tA.length arrs (ps ++ [ct]),
       rfl, rfl⟩⟩
  · intro zlibC st t ia cid ct comp enc others ps st' e h
    exact write_chromatogram_err_inv h
  · intro N
    induction N with
    | zero => exact ⟨rfl, rfl⟩
    | succ n ih =>
      obtain ⟨hc, ho⟩ := ih
      have hpair : simpleWrite (iterSimple n) = ((simpleWrite (iterSimple n)).1, none) := by
        have heta : simpleWrite (iterSimple n) =
            ((simpleWrite (iterSimple n)).1, (simpleWrite (iterSimple n)).2) := rfl
        rw [heta, simpleWrite_none]
      obtain ⟨mzA, arrs, hmz, harr, hst⟩ := write_spectrum_ok_inv hpair
      constructor
      · show (simpleWrite (iterSimple n)).1.spectrum_count = n + 1
        rw [hst, hc]
      · show List.map Record.index (simpleWrite (iterSimple n)).1.output = List.range (n + 1)
        rw [hst]
        simp [ho, hc, List.range_succ, Record.index]

/-- Witness for the amended C6: a concrete successful call advances the
counter once and emits index 0, and three iterated writes emit indices
0, 1, 2. -/
theorem claim_C6_witness :
    ((simpleWrite ⟨0, 0, []⟩).1.spectrum_count = 0 + 1 ∧
     (simpleWrite ⟨0, 0, []⟩).1.chromatogram_count = 0 ∧
     ∃ rec, (simpleWrite ⟨0, 0, []⟩).1.output = [] ++ [rec] ∧ Record.index rec = 0) ∧
    ((iterSimple 3).spectrum_count = 3 ∧
     List.map Record.index (iterSimple 3).output = List.range 3) :=
  ⟨claim_C6_counter_increment.1 idC ⟨0, 0, []⟩ (some [1]) none none none .pnone true .noComp
      (.escalar (.width 32)) [] [] (simpleWrite ⟨0, 0, []⟩).1 rfl,
   claim_C6_counter_increment.2.2.2.2 3⟩

/-- C7 counterexample: `write_chromatogram` does not raise on an additional
array with a `None` type tag; the record is emitted, the counter advances,
and the untyped array is encoded carrying only the compression and encoding
parameters (no array-type parameter). -/
theorem claim_C7_counterexample :
    c7call.2 = none ∧
    c7call.1.chromatogram_count = 1 ∧
    c7call.1.output.length = 1 ∧
    (bdaAt (recAt c7call.1 0) 1).params =
      [strBytes "no compression", strBytes "32-bit float"] :=
  ⟨rfl, rfl, rfl, rfl⟩

/-- C7 (amended): in `write_spectrum` an additional array with a `None`
type raises before the record is emitted and the writer state is untouched;
`write_chromatogram`, whose loop has no such check, completes without
raising on an additional array with a `None` type. -/
theorem claim_C7_none_type_spectrum_only :
    (∀ (zlibC : Bytes → Bytes) (st : WriterState) (mz ia ca : Option (List Int))
        (sid : Option Bytes) (pol : PolarityInput) (cent : Bool) (comp : Compression)
        (enc : EncodingInput) (others : List (Option Bytes × List Int)) (ps : List Bytes)
        (arr : List Int), (none, arr) ∈ others →
        (write_spectrum zlibC st mz ia ca sid pol cent comp enc others ps).2.isSome = true ∧
        (write_spectrum zlibC st mz ia ca sid pol cent comp enc others ps).1 = st) ∧
    (∀ (st : WriterState) (arr : List Int) (ps : List Bytes),
        (write_chromatogram idC st (some [1]) none none (strBytes "selected ion current")
          .noComp (.escalar (.width 32)) [(none, arr)] ps).2 = none) := by
  constructor
  · intro zlibC st mz ia ca sid pol cent comp enc others ps arr hmem
    cases mz with
    | none => exact ⟨rfl, rfl⟩
    | some mzA =>
      obtain ⟨e, he⟩ := @spectrumArrays_none_mem zlibC enc comp mzA ia ca others arr hmem
      have hcall : write_spectrum zlibC st (some mzA) ia ca sid pol cent comp enc others ps =
          (st, some e) := by
        unfold write_spectrum
        simp only [he]
      rw [hcall]
      exact ⟨rfl, rfl⟩
  · intro st arr ps
    rfl

/-- Witness for the amended C7: concrete spectrum call raising on a
`None`-typed extra array with the state untouched, and a concrete
chromatogram call succeeding on one. -/
theorem claim_C7_witness :
    ((write_spectrum idC ⟨0, 0, []⟩ (some [1]) none none none .pnone true .noComp
        (.escalar (.width 32)) [(none, [2])] []).2.isSome = true ∧
      (write_spectrum idC ⟨0, 0, []⟩ (some [1]) none none none .pnone true .noComp
        (.escalar (.width 32)) [(none, [2])] []).1 = ⟨0, 0, []⟩) ∧
    (write_chromatogram idC ⟨3, 4, []⟩ (some [1]) none none
      (strBytes "selected ion current") .noComp (.escalar (.width 32)) [(none, [9])] []).2 =
      none :=
  ⟨claim_C7_none_type_spectrum_only.1 idC ⟨0, 0, []⟩ (some [1]) none none none .pnone true
      .noComp (.escalar (.width 32)) [(none, [2])] [] [2] (List.Mem.head _),
   claim_C7_none_type_spectrum_only.2 ⟨3, 4, []⟩ [9] []⟩

end Psims
